import Mathlib

/-!
Verification of the o2copilot repository's template matcher
(`letters_templates_v2.py`) and citation validator (`app.py`).

Strings are modelled as `List Char`.  Python's `re` whitespace class and
`str.strip` are modelled over the common ASCII whitespace characters, and
`str.lower` over ASCII case folding (all concrete inputs exercised here use
only characters on which these agree with Python).  Python float scores
(`match_ratio * 100 + priority`) are modelled exactly over `ℚ`.
-/

/-- Python's whitespace class, restricted to the ASCII whitespace characters. -/
def pyWs (c : Char) : Bool :=
  c == ' ' || c == '\t' || c == '\n' || c == '\r' || c == '\x0b' || c == '\x0c'

/-- ASCII lower-casing of a string, modelling `str.lower` on the inputs used. -/
def lowerL (s : List Char) : List Char :=
  s.map Char.toLower

/-- Index of the first occurrence of `pat` as a contiguous substring, if any
(the scan a regex or Python's `in` performs). -/
def findSub (pat : List Char) : List Char → Option Nat
  | [] => if pat.isEmpty then some 0 else none
  | c :: cs => if pat.isPrefixOf (c :: cs) then some 0 else (findSub pat cs).map (· + 1)

/-- Python's substring test `pat in s`. -/
def containsSub (pat s : List Char) : Bool :=
  (findSub pat s).isSome

/-- `text.replace('…', '...')` from `_normalize_text` (app: letters_templates_v2.py:84). -/
def replEll : List Char → List Char
  | [] => []
  | c :: cs => if c = '…' then '.' :: '.' :: '.' :: replEll cs else c :: replEll cs

/-- State-passing scanner for `re.sub(r'\s+', ' ', text)`: the flag records
whether the previous character was whitespace (so the run was already
emitted as one space). -/
def collapseAux : Bool → List Char → List Char
  | _, [] => []
  | inWs, c :: cs =>
    if pyWs c then
      if inWs then collapseAux true cs else ' ' :: collapseAux true cs
    else c :: collapseAux false cs

/-- `re.sub(r'\s+', ' ', text)` (letters_templates_v2.py:86): every maximal
whitespace run becomes a single space. -/
def collapseWs (s : List Char) : List Char :=
  collapseAux false s

/-- Removes trailing characters satisfying `p` (the right half of `str.strip`). -/
def dropTrail (p : Char → Bool) : List Char → List Char
  | [] => []
  | c :: cs =>
    match dropTrail p cs with
    | [] => if p c then [] else [c]
    | r => c :: r

/-- Python's `str.strip()` over the modelled whitespace class. -/
def pyStrip (s : List Char) : List Char :=
  dropTrail pyWs (s.dropWhile pyWs)

/-- `_normalize_text` (letters_templates_v2.py:73-89): replace the Unicode
ellipsis by three periods, collapse whitespace runs, remove commas, trim. -/
def normalize_text (s : List Char) : List Char :=
  pyStrip (List.filter (fun c => c != ',') (collapseWs (replEll s)))

/-- A template from the JSON registry; only the fields the matcher and the
mutation operations read are modelled. `priority` is optional in the JSON,
mirroring `template.get('priority', 0)`. -/
structure Template where
  id : List Char
  name : List Char
  description : List Char
  patterns : List (List Char)
  alternative_patterns : List (List (List Char))
  action : List Char
  msg_file : List Char
  priority : Option Int
  comment : List Char
deriving DecidableEq

/-- `template.get('priority', 0)`. -/
def priorityOf (t : Template) : Int :=
  t.priority.getD 0

/-- The query as the matcher sees it: `self._normalize_text(query).lower()`
(letters_templates_v2.py:109). -/
def normQuery (q : List Char) : List Char :=
  lowerL (normalize_text q)

/-- `main_match_count` for one template (letters_templates_v2.py:131-140):
how many of the template's main patterns occur, lower-cased, in the
normalized query. -/
def mainHits (t : Template) (nq : List Char) : Nat :=
  t.patterns.countP (fun p => containsSub (lowerL p) nq)

/-- `alt_match` (letters_templates_v2.py:147-152): some alternative AND-group
has all of its members in the normalized query. -/
def altMatch (t : Template) (nq : List Char) : Bool :=
  t.alternative_patterns.any (fun g => g.all (fun a => containsSub (lowerL a) nq))

/-- `is_match` (letters_templates_v2.py:165): all main patterns found, or an
alternative group satisfied.  The argument is the already-normalized query. -/
def is_match (t : Template) (nq : List Char) : Bool :=
  (mainHits t nq == t.patterns.length) || altMatch t nq

/-- `match_ratio` (letters_templates_v2.py:158-161), exactly over ℚ. -/
def matchFrac (t : Template) (nq : List Char) : ℚ :=
  if 0 < t.patterns.length then (mainHits t nq : ℚ) / (t.patterns.length : ℚ) else 0

/-- `score = match_ratio * 100 + priority` (letters_templates_v2.py:179). -/
def scoreOf (t : Template) (nq : List Char) : ℚ :=
  matchFrac t nq * 100 + (priorityOf t : ℚ)

/-- One iteration of the matching loop (letters_templates_v2.py:176-187):
the running best is replaced only on a strictly greater score. -/
def findStep (nq : List Char) (st : Option Template × ℚ) (t : Template) :
    Option Template × ℚ :=
  if is_match t nq = true ∧ st.2 < scoreOf t nq then (some t, scoreOf t nq) else st

/-- `find_matching_template` (letters_templates_v2.py:91-218).  The context
text `error_message` is normalized (line 110) but, as in the source, never
read afterwards.  Returns the winning template together with `best_score`. -/
def find_matching_template (templates : List Template) (query error_message : List Char) :
    Option (Template × ℚ) :=
  let nq := normQuery query
  let _nc := if error_message.isEmpty then [] else lowerL (normalize_text error_message)
  let st := templates.foldl (findStep nq) (none, (0 : ℚ))
  match st.1 with
  | some t => some (t, st.2)
  | none => none

/-- Stable descending insertion (model of Python's stable
`list.sort(key=priority, reverse=True)`): an element moves ahead only of
strictly lower priorities, so equal priorities keep their original order. -/
def insertDesc (t : Template) : List Template → List Template
  | [] => [t]
  | u :: us => if priorityOf u < priorityOf t then t :: u :: us else u :: insertDesc t us

/-- The registry sort used at load time and after mutation
(letters_templates_v2.py:48 and 325). -/
def sortDesc (l : List Template) : List Template :=
  l.foldr insertDesc []

/-- Boolean sortedness check: priorities are non-increasing along the list. -/
def sortedDescB : List Template → Bool
  | [] => true
  | [_] => true
  | a :: b :: l => decide (priorityOf b ≤ priorityOf a) && sortedDescB (b :: l)

/-- `_load_config` (letters_templates_v2.py:36-65), restricted to the registry
state it establishes: the template list from the configuration, sorted
descending by priority.  `reload_config` re-runs exactly this. -/
def load_config (raw : List Template) : List Template :=
  sortDesc raw

/-- `add_template` (letters_templates_v2.py:277-328): reject a duplicate id,
otherwise append the new template (which carries no alternative-patterns
field) and re-sort descending by priority. -/
def add_template (reg : List Template) (template_id nm description : List Char)
    (patterns : List (List Char)) (action msg_file : List Char)
    (priority : Int) (comment : List Char) : List Template × Bool :=
  if reg.any (fun u => u.id == template_id) then (reg, false)
  else
    (sortDesc (reg ++ [⟨template_id, nm, description, patterns, [], action, msg_file,
      some priority, comment⟩]), true)

/-!
### The citation validator (`process_sources`, app.py:429-512)

The regular expressions the source uses are each implemented directly as
deterministic scanners (none of them needs backtracking: in every
`X*`/`X+?` position the continuation character is disjoint from `X`).
`re.sub` replacement strings are taken literally, as none of the texts the
source builds contains a backslash escape.  Scanners that jump over a match
recurse on a non-structural suffix, so they carry explicit fuel; the
wrappers instantiate the fuel with the input length, which every lemma below
shows is enough.
-/

/-- Length of the match of `\[\d+\]` at the head of `s`, if any
(the citation-marker pattern of app.py:441/483). -/
def markerLen (s : List Char) : Option Nat :=
  match s with
  | [] => none
  | c :: rest =>
    if c = '[' then
      let ds := rest.takeWhile Char.isDigit
      if ds.isEmpty then none
      else if (rest.drop ds.length).head? = some ']' then some (ds.length + 2)
      else none
    else none

/-- `re.sub(matcher, repl, s)` as a fuel-driven left-to-right scan: at each
position, either replace a match and jump over it, or emit one character.
Matchers always consume at least one character, so fuel `s.length` is
sufficient (the `0` case is never reached then). -/
def subAllGo (m : List Char → Option Nat) (r : List Char) : Nat → List Char → List Char
  | _, [] => []
  | 0, s => s
  | f + 1, c :: cs =>
    match m (c :: cs) with
    | some (n + 1) => r ++ subAllGo m r f (cs.drop n)
    | _ => c :: subAllGo m r f cs

/-- Replace every non-overlapping, leftmost-first match of `m` by `r`. -/
def subAll (m : List Char → Option Nat) (r : List Char) (s : List Char) : List Char :=
  subAllGo m r s.length s

/-- `re.sub(r"\[\d+\]", "", s)` (app.py:441/483). -/
def stripMarkers (s : List Char) : List Char :=
  subAll markerLen [] s

/-- Head match of the accuracy-marker pattern
`Точность ответа:<b> \d+/10</b>` (app.py:443/485). -/
def confLen (s : List Char) : Option Nat :=
  if "Точность ответа:<b> ".toList.isPrefixOf s then
    let r1 := s.drop "Точность ответа:<b> ".toList.length
    let ds := r1.takeWhile Char.isDigit
    if ds.isEmpty then none
    else if "/10</b>".toList.isPrefixOf (r1.drop ds.length) then
      some ("Точность ответа:<b> ".toList.length + ds.length + "/10</b>".toList.length)
    else none
  else none

/-- The text the accuracy marker is forced to (app.py:445). -/
def confRepl : List Char :=
  "Точность ответа:<b> 0/10</b>".toList

/-- Forcing every accuracy marker to `0/10` (app.py:442-446/484-488). -/
def zeroConf (s : List Char) : List Char :=
  subAll confLen confRepl s

/-- Head match of the Sources-section pattern
`<h3>Источники</h3>\s*<ol>(.*?)</ol>` (app.py:435-437): returns the total
match length together with the contents of the capture group. -/
def srcMatch (s : List Char) : Option (Nat × List Char) :=
  if "<h3>Источники</h3>".toList.isPrefixOf s then
    let r1 := s.drop "<h3>Источники</h3>".toList.length
    let w := r1.takeWhile pyWs
    let r2 := r1.drop w.length
    if "<ol>".toList.isPrefixOf r2 then
      let r3 := r2.drop "<ol>".toList.length
      match findSub "</ol>".toList r3 with
      | some k =>
        some ("<h3>Источники</h3>".toList.length + w.length + "<ol>".toList.length
          + k + "</ol>".toList.length, r3.take k)
      | none => none
    else none
  else none

/-- The Sources-section pattern as a plain length matcher (for `re.sub`). -/
def srcLen (s : List Char) : Option Nat :=
  (srcMatch s).map Prod.fst

/-- `re.search` of the Sources-section pattern: capture group of the
leftmost match (app.py:435-437). -/
def searchSrc : List Char → Option (List Char)
  | [] => none
  | c :: cs =>
    match srcMatch (c :: cs) with
    | some g => some g.2
    | none => searchSrc cs

/-- `re.findall(r"<li>(.*?)</li>", content, re.DOTALL)` (app.py:459), with
fuel as in `subAllGo`. -/
def liItemsGo : Nat → List Char → List (List Char)
  | _, [] => []
  | 0, _ => []
  | f + 1, c :: cs =>
    if "<li>".toList.isPrefixOf (c :: cs) then
      match findSub "</li>".toList ((c :: cs).drop 4) with
      | some k => ((c :: cs).drop 4).take k :: liItemsGo f ((c :: cs).drop (4 + k + 5))
      | none => liItemsGo f cs
    else liItemsGo f cs

/-- All `<li>…</li>` item bodies of the Sources list, leftmost first. -/
def liItems (s : List Char) : List (List Char) :=
  liItemsGo s.length s

/-- Head match of an HTML tag `<[^>]+>` (app.py:465). -/
def tagLen (s : List Char) : Option Nat :=
  match s with
  | [] => none
  | c :: rest =>
    if c = '<' then
      let body := rest.takeWhile (fun c => c != '>')
      if body.isEmpty then none
      else if (rest.drop body.length).head? = some '>' then some (body.length + 2)
      else none
    else none

/-- `re.sub(r"<[^>]+>", "", item).strip()` (app.py:465): the candidate
citation label of a list item. -/
def cleanItem (item : List Char) : List Char :=
  pyStrip (subAll tagLen [] item)

/-- `path.split("/")[-1]` (app.py:472): the final path segment. -/
def lastSeg (p : List Char) : List Char :=
  (p.reverse.takeWhile (fun c => c != '/')).reverse

/-- The per-path citation test of app.py:469-473: the path contains the
label, or the label contains the path, or the label is the path's filename. -/
def relMatch (path lbl : List Char) : Bool :=
  containsSub path lbl || containsSub lbl path || lbl == lastSeg path

/-- `links_dict` lookup (`path in links_dict` / `links_dict[path]`). -/
def lookupL (links : List (List Char × List Char)) (p : List Char) : Option (List Char) :=
  (links.find? (fun kv => kv.1 == p)).map Prod.snd

/-- The inner loop of app.py:467-479 for one item: the first actual document
path that passes `relMatch` *and* has a link-index entry yields that link
(`matched = True; break`); a path match without an entry is skipped, and if
no path yields a link the item stays unlinked (`(item, None)`). -/
def resolveItem (docs : List (List Char)) (links : List (List Char × List Char))
    (item : List Char) : Option (List Char) :=
  let lbl := cleanItem item
  docs.findSome? (fun p => if relMatch p lbl then lookupL links p else none)

/-- A rebuilt list item (app.py:495-501): matched-with-link items are wrapped
in an anchor, the rest are kept plain. -/
def itemHtml : List Char × Option (List Char) → List Char
  | (it, some l) =>
    "<li><a href=\"".toList ++ l ++ "\" target=\"_blank\">".toList ++ it ++ "</a></li>".toList
  | (it, none) => "<li>".toList ++ it ++ "</li>".toList

/-- The fixed replacement section of the zero-match branch (app.py:447-449/489-491). -/
def notFoundSection : List Char :=
  "<h3>Источники</h3>\n<p style=\"color: red;\">Не найдено!</p>".toList

/-- The rebuilt Sources section (app.py:502). -/
def builtSection (vs : List (List Char × Option (List Char))) : List Char :=
  "<h3>Источники</h3><ol>".toList ++ (vs.map itemHtml).flatten ++ "</ol>".toList

/-- `process_sources` (app.py:429-512).  Without a Sources section, or when
no list item resolves to a link, the whole answer is degraded: bracket
markers stripped, accuracy forced to `0/10`, and every Sources section
replaced by the fixed "not found" marker.  Otherwise the original answer has
its Sources sections replaced by the rebuilt list. -/
def process_sources (s : List Char) (docs : List (List Char))
    (links : List (List Char × List Char)) : List Char :=
  match searchSrc s with
  | none => subAll srcLen notFoundSection (zeroConf (stripMarkers s))
  | some content =>
    let items := liItems content
    let vs := items.map (fun it => (it, resolveItem docs links it))
    if vs.all (fun pr => pr.2.isNone) then
      subAll srcLen notFoundSection (zeroConf (stripMarkers s))
    else
      subAll srcLen (builtSection vs) s

/-!
### The `/api/messages` handler (app.py:67-352), control-flow skeleton

Only the error-routing structure is embedded: the JSON body is an
association list (`request.get_json()` returning `none` models a missing or
null body), the message-logging insert and the whole pipeline inside the
`try:` block (search, prompt assembly, generation, post-processing) are
abstracted by their outcomes.  The essential control-flow fact kept from the
source is *where* the `try:` begins (line 91): the body checks, the database
insert (lines 76-83) and `mode = data["mode"]` (line 86) all run before it.
-/

/-- A Python exception class, as far as the handler distinguishes them. -/
inductive PyExc
  | keyError
  | requestException
  | otherError
deriving DecidableEq

/-- What the handler hands back to Flask. -/
inductive HandlerResult
  | response (status : Nat) (payload : List Char)
  | uncaught (e : PyExc)
deriving DecidableEq

/-- Whether the handler produced a structured response (and not a raised
exception escaping the view function). -/
def HandlerResult.structured : HandlerResult → Bool
  | .response _ _ => true
  | .uncaught _ => false

/-- Assoc-list lookup, modelling `data[key]` / `key in data` on the parsed
JSON object. -/
def jsonGet (d : List (List Char × List Char)) (k : List Char) : Option (List Char) :=
  (d.find? (fun kv => kv.1 == k)).map Prod.snd

/-- The `"text"` body key (app.py:71/74). -/
def textKey : List Char := "text".toList

/-- The `"mode"` body key (app.py:86). -/
def modeKey : List Char := "mode".toList

/-- The 400 payload `{"error": "Invalid input"}` (app.py:72). -/
def invalidPayload : List Char := "Invalid input".toList

/-- The 503 payload `{"error": "Model service unavailable"}` (app.py:349). -/
def unavailPayload : List Char := "Model service unavailable".toList

/-- The 500 payload `{"error": "Internal server error"}` (app.py:352). -/
def internalPayload : List Char := "Internal server error".toList

/-- `messages` (app.py:67-352).  `body` is the parsed JSON object (or
`none`), `dbInsert` the outcome of the unprotected message-logging insert,
and `tryBlock` the outcome of everything inside the `try:` (the final
response text on success, or the exception it raises).  Steps before the
`try:` propagate their exceptions uncaught; inside it,
`requests.exceptions.RequestException` maps to 503 and any other exception
to 500 (app.py:347-352). -/
def messages (body : Option (List (List Char × List Char)))
    (dbInsert : Option PyExc) (tryBlock : Except PyExc (List Char)) : HandlerResult :=
  match body with
  | none => .response 400 invalidPayload
  | some d =>
    if d.isEmpty then .response 400 invalidPayload
    else
      match jsonGet d textKey with
      | none => .response 400 invalidPayload
      | some _ =>
        match dbInsert with
        | some e => .uncaught e
        | none =>
          match jsonGet d modeKey with
          | none => .uncaught .keyError
          | some _ =>
            match tryBlock with
            | .ok t => .response 200 t
            | .error .requestException => .response 503 unavailPayload
            | .error _ => .response 500 internalPayload
/-!
### Matcher lemmas
-/

theorem findStep_of_cond {nq : List Char} {st : Option Template × ℚ} {t : Template}
    (h : is_match t nq = true ∧ st.2 < scoreOf t nq) :
    findStep nq st t = (some t, scoreOf t nq) := by
  simp [findStep, h]

theorem findStep_of_not_cond {nq : List Char} {st : Option Template × ℚ} {t : Template}
    (h : ¬(is_match t nq = true ∧ st.2 < scoreOf t nq)) :
    findStep nq st t = st := by
  simp only [findStep, if_neg h]

/-- Once the running best is set, the fold never returns to `none`. -/
theorem foldl_findStep_some (nq : List Char) :
    ∀ (l : List Template) (t : Template) (s : ℚ),
      (l.foldl (findStep nq) (some t, s)).1.isSome = true := by
  intro l
  induction l with
  | nil => intro t s; rfl
  | cons x xs ih =>
    intro t s
    simp only [List.foldl_cons]
    by_cases hc : is_match x nq = true ∧ (some t, s).2 < scoreOf x nq
    · rw [findStep_of_cond hc]; exact ih x _
    · rw [findStep_of_not_cond hc]; exact ih t s

/-- While the best is `none`, the threshold stays put, so the fold yields
`none` exactly when no element beats it. -/
theorem foldl_findStep_none_iff (nq : List Char) :
    ∀ (l : List Template) (s : ℚ),
      (l.foldl (findStep nq) (none, s)).1 = none ↔
        ∀ t ∈ l, ¬(is_match t nq = true ∧ s < scoreOf t nq) := by
  intro l
  induction l with
  | nil => intro s; simp
  | cons x xs ih =>
    intro s
    simp only [List.foldl_cons]
    by_cases hc : is_match x nq = true ∧ (none (α := Template), s).2 < scoreOf x nq
    · rw [findStep_of_cond hc]
      constructor
      · intro h
        have := foldl_findStep_some nq xs x (scoreOf x nq)
        rw [h] at this
        exact absurd this (by simp)
      · intro h
        exact absurd hc (h x (List.mem_cons_self x xs))
    · rw [findStep_of_not_cond hc]
      rw [ih s]
      constructor
      · intro h u hu
        rcases List.mem_cons.mp hu with rfl | hu'
        · exact hc
        · exact h u hu'
      · intro h u hu
        exact h u (List.mem_cons_of_mem x hu)

/-- Full characterisation of a successful fold: the winner sits at a
position strictly later than every earlier matching template whose score
reaches the final one — the strict-greater update makes the first template
at the winning score win. -/
theorem foldl_findStep_spec (nq : List Char) :
    ∀ (l : List Template) (b : Option Template) (s : ℚ) (t : Template) (s' : ℚ),
      l.foldl (findStep nq) (b, s) = (some t, s') →
      (b = some t ∧ s' = s) ∨
        ∃ l1 l2, l = l1 ++ t :: l2 ∧ is_match t nq = true ∧ scoreOf t nq = s' ∧ s < s' ∧
          ∀ u ∈ l1, is_match u nq = true → scoreOf u nq < s' := by
  intro l
  induction l with
  | nil =>
    intro b s t s' h
    simp only [List.foldl_nil, Prod.mk.injEq] at h
    exact Or.inl ⟨h.1, h.2.symm⟩
  | cons x xs ih =>
    intro b s t s' h
    simp only [List.foldl_cons] at h
    by_cases hc : is_match x nq = true ∧ (b, s).2 < scoreOf x nq
    · rw [findStep_of_cond hc] at h
      rcases ih _ _ _ _ h with ⟨hbt, hs⟩ | ⟨l1, l2, hl, hm, hsc, hgt, hall⟩
      · cases Option.some.inj hbt
        refine Or.inr ⟨[], xs, rfl, hc.1, ?_, ?_, ?_⟩
        · exact hs ▸ rfl
        · exact hs ▸ hc.2
        · intro u hu; cases hu
      · refine Or.inr ⟨x :: l1, l2, by rw [hl, List.cons_append], hm, hsc, lt_trans hc.2 hgt, ?_⟩
        intro u hu
        rcases List.mem_cons.mp hu with rfl | hu'
        · intro _; exact hgt
        · exact hall u hu'
    · rw [findStep_of_not_cond hc] at h
      rcases ih _ _ _ _ h with hL | ⟨l1, l2, hl, hm, hsc, hgt, hall⟩
      · exact Or.inl hL
      · refine Or.inr ⟨x :: l1, l2, by rw [hl, List.cons_append], hm, hsc, hgt, ?_⟩
        intro u hu
        rcases List.mem_cons.mp hu with rfl | hu'
        · intro hmu
          have hle : ¬ s < scoreOf u nq := fun hlt => hc ⟨hmu, hlt⟩
          exact lt_of_le_of_lt (not_lt.mp hle) hgt
        · exact hall u hu'

theorem find_matching_template_eq_match (reg : List Template) (q c : List Char) :
    find_matching_template reg q c =
      match (reg.foldl (findStep (normQuery q)) (none, (0 : ℚ))).1 with
      | some t => some (t, (reg.foldl (findStep (normQuery q)) (none, (0 : ℚ))).2)
      | none => none := by
  rfl
/-!
### Concrete registry entries used as test vectors
-/

/-- A template with empty `patterns` and empty `alternative_patterns`. -/
def tEmpty : Template :=
  ⟨"t_empty".toList, "empty".toList, "no patterns".toList, [], [],
    "block_and_notify".toList, "e.msg".toList, some 10, "".toList⟩

/-- A template matched only through an alternative group, with priority 0. -/
def tAltOnly : Template :=
  ⟨"t_alt".toList, "alt".toList, "alt only".toList, [], [[ "foo".toList ]],
    "block_and_notify".toList, "a.msg".toList, some 0, "".toList⟩

/-- First of two templates with identical patterns and priority. -/
def tFirst : Template :=
  ⟨"t_first".toList, "first".toList, "first of tie".toList, [ "x".toList ], [],
    "block_and_notify".toList, "f.msg".toList, some 50, "".toList⟩

/-- Second of two templates with identical patterns and priority. -/
def tSecond : Template :=
  ⟨"t_second".toList, "second".toList, "second of tie".toList, [ "x".toList ], [],
    "push_and_notify".toList, "s.msg".toList, some 50, "".toList⟩

/-- C2 counterexample: with `patterns = []` and `alternative_patterns = []`,
the source computes `is_match = (0 == 0) or False = True` — empty `patterns`
IS an automatic main-pattern match — and with priority 10 the template is
returned as the best match (score `0 * 100 + 10 = 10 > 0`), so it is not
true that such a template can never be the matched template. -/
theorem c2_counterexample :
    is_match tEmpty (normQuery ("hello".toList)) = true ∧
    find_matching_template [tEmpty] ("hello".toList) [] = some (tEmpty, 10) := by
  have e1 : scoreOf tEmpty (normQuery ("hello".toList)) = 10 := by
    unfold scoreOf matchFrac
    norm_num [priorityOf, tEmpty]
  have m1 : is_match tEmpty (normQuery ("hello".toList)) = true := by decide
  refine ⟨m1, ?_⟩
  simp only [find_matching_template, List.foldl_cons, List.foldl_nil, findStep, e1, m1]
  norm_num

/-- C2 (amended): a template with empty `patterns` (in particular one that
also has empty `alternative_patterns`) satisfies `is_match` for every query:
the source treats an empty main-pattern list as an automatically satisfied
main-pattern match, and such a template is selectable whenever its priority
makes its score beat the running best. -/
theorem c2_empty_patterns_auto_match (t : Template) (nq : List Char)
    (h1 : t.patterns = []) (_h2 : t.alternative_patterns = []) :
    is_match t nq = true := by
  simp [is_match, mainHits, h1]

/-- Witness for `c2_empty_patterns_auto_match` at `tEmpty`. -/
theorem c2_witness :
    tEmpty.patterns = [] ∧ tEmpty.alternative_patterns = [] ∧
      is_match tEmpty ("anything".toList) = true :=
  ⟨rfl, rfl, c2_empty_patterns_auto_match tEmpty ("anything".toList) rfl rfl⟩

/-- C4 counterexample: `tAltOnly` satisfies `is_match` on query "foo" (its
alternative group is found), but its score is `0 * 100 + 0 = 0`, and the
loop's `score > best_score` test against the initial `best_score = 0` never
fires, so `find_matching_template` returns `None` although a template
matches — the claimed equivalence fails. -/
theorem c4_counterexample :
    is_match tAltOnly (normQuery ("foo".toList)) = true ∧
    find_matching_template [tAltOnly] ("foo".toList) [] = none := by
  have e1 : scoreOf tAltOnly (normQuery ("foo".toList)) = 0 := by
    unfold scoreOf matchFrac
    norm_num [priorityOf, tAltOnly]
  refine ⟨by decide, ?_⟩
  simp only [find_matching_template, List.foldl_cons, List.foldl_nil, findStep, e1]
  norm_num

/-- C4 (amended): `find_matching_template` returns `None` iff no template in
the registry satisfies `is_match` *with a strictly positive score*; a
matching template whose score `matchRatio * 100 + priority` is zero or
negative never beats the initial `best_score = 0` and is never returned. -/
theorem c4_none_iff_no_positive_match (reg : List Template) (q c : List Char) :
    find_matching_template reg q c = none ↔
      ∀ t ∈ reg, ¬(is_match t (normQuery q) = true ∧ 0 < scoreOf t (normQuery q)) := by
  rw [find_matching_template_eq_match]
  rcases hst : (reg.foldl (findStep (normQuery q)) (none, (0 : ℚ))).1 with _ | u
  · simp only []
    rw [← foldl_findStep_none_iff (normQuery q) reg 0]
    rw [hst]
    simp
  · simp only []
    constructor
    · intro h; cases h
    · intro h
      have := (foldl_findStep_none_iff (normQuery q) reg 0).mpr h
      rw [hst] at this
      cases this

/-- C6: if the matcher returns template `t` with score `s`, then the registry
splits as `l1 ++ t :: l2` where no template of `l1` (the part iterated
before `t`) both matches and reaches score `s`: the maximum is tracked with
strict greater-than, so among equal scores the first template encountered
wins and a later equal score never replaces it. -/
theorem c6_first_equal_score_wins (reg : List Template) (q c : List Char)
    (t : Template) (s : ℚ)
    (h : find_matching_template reg q c = some (t, s)) :
    ∃ l1 l2, reg = l1 ++ t :: l2 ∧ is_match t (normQuery q) = true ∧
      scoreOf t (normQuery q) = s ∧
      ∀ u ∈ l1, is_match u (normQuery q) = true → scoreOf u (normQuery q) < s := by
  rw [find_matching_template_eq_match] at h
  rcases hst : (reg.foldl (findStep (normQuery q)) (none, (0 : ℚ))) with ⟨b, s0⟩
  rcases b with _ | u
  · rw [hst] at h; cases h
  · rw [hst] at h
    simp only [Option.some.injEq, Prod.mk.injEq] at h
    rcases h with ⟨rfl, rfl⟩
    rcases foldl_findStep_spec (normQuery q) reg none 0 u s0 hst with ⟨hb, _⟩ | h'
    · cases hb
    · rcases h' with ⟨l1, l2, hl, hm, hsc, _, hall⟩
      exact ⟨l1, l2, hl, hm, hsc, hall⟩

/-- Witness for `c6_first_equal_score_wins`: `tFirst` and `tSecond` both
match query "x" with score 150, and the matcher returns `tFirst`. -/
theorem c6_witness :
    find_matching_template [tFirst, tSecond] ("x".toList) [] = some (tFirst, 150) ∧
    scoreOf tSecond (normQuery ("x".toList)) = 150 ∧
    (∃ l1 l2, [tFirst, tSecond] = l1 ++ tFirst :: l2 ∧
      is_match tFirst (normQuery ("x".toList)) = true ∧
      scoreOf tFirst (normQuery ("x".toList)) = 150 ∧
      ∀ u ∈ l1, is_match u (normQuery ("x".toList)) = true →
        scoreOf u (normQuery ("x".toList)) < 150) := by
  have e1 : scoreOf tFirst (normQuery ("x".toList)) = 150 := by
    have h : mainHits tFirst (normQuery ("x".toList)) = 1 := by decide
    unfold scoreOf matchFrac
    rw [h]
    norm_num [priorityOf, tFirst]
  have e2 : scoreOf tSecond (normQuery ("x".toList)) = 150 := by
    have h : mainHits tSecond (normQuery ("x".toList)) = 1 := by decide
    unfold scoreOf matchFrac
    rw [h]
    norm_num [priorityOf, tSecond]
  have m1 : is_match tFirst (normQuery ("x".toList)) = true := by decide
  have m2 : is_match tSecond (normQuery ("x".toList)) = true := by decide
  have h : find_matching_template [tFirst, tSecond] ("x".toList) [] = some (tFirst, 150) := by
    simp only [find_matching_template, List.foldl_cons, List.foldl_nil, findStep, e1, e2, m1, m2]
    norm_num
  exact ⟨h, e2, c6_first_equal_score_wins [tFirst, tSecond] ("x".toList) [] tFirst 150 h⟩

/-- C8: the context text never contributes to matching — the source
normalizes `error_message` (letters_templates_v2.py:110) but the loop only
tests patterns against the normalized query, so the result is identical for
any two context strings. -/
theorem c8_context_independent (reg : List Template) (q c1 c2 : List Char) :
    find_matching_template reg q c1 = find_matching_template reg q c2 := rfl
/-!
### Registry sortedness (C9)
-/

theorem sortedDescB_tail {a : Template} {l : List Template}
    (h : sortedDescB (a :: l) = true) : sortedDescB l = true := by
  cases l with
  | nil => rfl
  | cons b bs =>
    have := h
    unfold sortedDescB at this
    exact (Bool.and_eq_true_iff.mp this).2

theorem sortedDescB_insertDesc (t : Template) :
    ∀ l, sortedDescB l = true → sortedDescB (insertDesc t l) = true := by
  intro l
  induction l with
  | nil => intro _; rfl
  | cons u us ih =>
    intro h
    unfold insertDesc
    by_cases hc : priorityOf u < priorityOf t
    · rw [if_pos hc]
      show (decide (priorityOf u ≤ priorityOf t) && sortedDescB (u :: us)) = true
      simp [le_of_lt hc, h]
    · rw [if_neg hc]
      have hts : sortedDescB (insertDesc t us) = true := ih (sortedDescB_tail h)
      cases us with
      | nil =>
        show (decide (priorityOf t ≤ priorityOf u) && sortedDescB [t]) = true
        simp [not_lt.mp hc]
        rfl
      | cons v vs =>
        unfold insertDesc
        by_cases hv : priorityOf v < priorityOf t
        · rw [if_pos hv]
          show (decide (priorityOf t ≤ priorityOf u) &&
            (decide (priorityOf v ≤ priorityOf t) && sortedDescB (v :: vs))) = true
          have huv : sortedDescB (v :: vs) = true := sortedDescB_tail h
          simp [not_lt.mp hc, le_of_lt hv, huv]
        · rw [if_neg hv]
          have huv : decide (priorityOf v ≤ priorityOf u) = true := by
            have := h
            unfold sortedDescB at this
            exact (Bool.and_eq_true_iff.mp this).1
          unfold insertDesc at hts
          rw [if_neg hv] at hts
          show (decide (priorityOf v ≤ priorityOf u) && sortedDescB (v :: insertDesc t vs)) = true
          simp only [Bool.and_eq_true_iff]
          exact ⟨huv, hts⟩

theorem sortedDescB_sortDesc : ∀ l, sortedDescB (sortDesc l) = true := by
  intro l
  induction l with
  | nil => rfl
  | cons x xs ih =>
    show sortedDescB (insertDesc x (sortDesc xs)) = true
    exact sortedDescB_insertDesc x (sortDesc xs) ih

/-- C9: the registry's sorted-descending-by-priority invariant (with default
priority 0 for a missing one) holds after every operation that establishes
or mutates the template list: after `_load_config` (hence also after
`reload_config`, which re-runs it) and after every `add_template` call —
the duplicate-id branch leaves a sorted registry untouched and the success
branch re-sorts. -/
theorem c9_registry_sorted_invariant :
    (∀ raw, sortedDescB (load_config raw) = true) ∧
    (∀ reg tid nm ds ps ac mf pr cm, sortedDescB reg = true →
      sortedDescB (add_template reg tid nm ds ps ac mf pr cm).1 = true) := by
  constructor
  · intro raw
    exact sortedDescB_sortDesc raw
  · intro reg tid nm ds ps ac mf pr cm h
    unfold add_template
    by_cases hd : reg.any (fun u => u.id == tid) = true
    · rw [if_pos hd]
      exact h
    · rw [if_neg hd]
      exact sortedDescB_sortDesc _

/-- Witness for `c9_registry_sorted_invariant`: a concrete load and a
concrete successful `add_template` both leave a sorted registry. -/
theorem c9_witness :
    sortedDescB (load_config [tEmpty, tFirst]) = true ∧
    sortedDescB (add_template [tFirst] ("t_new".toList) ("n".toList) ("d".toList)
      [ "p".toList ] ("block_and_notify".toList) ("n.msg".toList) 10 ("".toList)).1 = true :=
  ⟨c9_registry_sorted_invariant.1 [tEmpty, tFirst],
    c9_registry_sorted_invariant.2 [tFirst] ("t_new".toList) ("n".toList) ("d".toList)
      [ "p".toList ] ("block_and_notify".toList) ("n.msg".toList) 10 ("".toList) (by decide)⟩
/-!
### Normalization lemmas (C10)
-/

/-- Every whitespace character of the list is a plain space. -/
def wsSpace (l : List Char) : Bool :=
  l.all (fun c => !(pyWs c) || (c == ' '))

/-- No two adjacent whitespace characters. -/
def noDoubleWs : List Char → Bool
  | [] => true
  | [_] => true
  | a :: b :: l => !(pyWs a && pyWs b) && noDoubleWs (b :: l)

/-- The head, if any, is not whitespace. -/
def headNonWs : List Char → Bool
  | [] => true
  | c :: _ => !(pyWs c)

theorem mem_replEll {c : Char} : ∀ {s : List Char}, c ∈ replEll s → c = '.' ∨ c ∈ s := by
  intro s
  induction s with
  | nil => intro h; cases h
  | cons a as ih =>
    intro h
    unfold replEll at h
    by_cases ha : a = '…'
    · rw [if_pos ha] at h
      rcases List.mem_cons.mp h with rfl | h'
      · exact Or.inl rfl
      rcases List.mem_cons.mp h' with rfl | h''
      · exact Or.inl rfl
      rcases List.mem_cons.mp h'' with rfl | h3
      · exact Or.inl rfl
      · rcases ih h3 with hd | hm
        · exact Or.inl hd
        · exact Or.inr (List.mem_cons_of_mem a hm)
    · rw [if_neg ha] at h
      rcases List.mem_cons.mp h with rfl | h'
      · exact Or.inr (List.mem_cons_self c as)
      · rcases ih h' with hd | hm
        · exact Or.inl hd
        · exact Or.inr (List.mem_cons_of_mem a hm)

theorem replEll_no_ell : ∀ s : List Char, '…' ∉ replEll s := by
  intro s
  induction s with
  | nil => intro h; cases h
  | cons a as ih =>
    intro h
    unfold replEll at h
    by_cases ha : a = '…'
    · rw [if_pos ha] at h
      rcases List.mem_cons.mp h with hc | h'
      · cases hc
      rcases List.mem_cons.mp h' with hc | h''
      · cases hc
      rcases List.mem_cons.mp h'' with hc | h3
      · cases hc
      · exact ih h3
    · rw [if_neg ha] at h
      rcases List.mem_cons.mp h with hc | h'
      · exact ha hc.symm
      · exact ih h' 

theorem replEll_eq_self : ∀ {s : List Char}, '…' ∉ s → replEll s = s := by
  intro s
  induction s with
  | nil => intro _; rfl
  | cons a as ih =>
    intro h
    unfold replEll
    have ha : a ≠ '…' := fun he => h (he ▸ List.mem_cons_self a as)
    rw [if_neg ha]
    rw [ih (fun hm => h (List.mem_cons_of_mem a hm))]
theorem mem_collapseAux {c : Char} :
    ∀ {b : Bool} {s : List Char}, c ∈ collapseAux b s → c = ' ' ∨ (c ∈ s ∧ pyWs c = false) := by
  intro b s
  induction s generalizing b with
  | nil => intro h; cases h
  | cons a as ih =>
    intro h
    unfold collapseAux at h
    by_cases ha : pyWs a = true
    · rw [if_pos ha] at h
      cases b with
      | true =>
        simp only [if_pos rfl] at h
        rcases ih h with hd | ⟨hm, hw⟩
        · exact Or.inl hd
        · exact Or.inr ⟨List.mem_cons_of_mem a hm, hw⟩
      | false =>
        rw [if_neg Bool.false_ne_true] at h
        rcases List.mem_cons.mp h with rfl | h'
        · exact Or.inl rfl
        · rcases ih h' with hd | ⟨hm, hw⟩
          · exact Or.inl hd
          · exact Or.inr ⟨List.mem_cons_of_mem a hm, hw⟩
    · rw [if_neg ha] at h
      rcases List.mem_cons.mp h with rfl | h'
      · exact Or.inr ⟨List.mem_cons_self c as, Bool.not_eq_true (pyWs c) ▸ ha⟩
      · rcases ih h' with hd | ⟨hm, hw⟩
        · exact Or.inl hd
        · exact Or.inr ⟨List.mem_cons_of_mem a hm, hw⟩

theorem collapseAux_wsSpace : ∀ (b : Bool) (s : List Char),
    wsSpace (collapseAux b s) = true := by
  intro b s
  rw [wsSpace, List.all_eq_true]
  intro c hc
  rcases mem_collapseAux hc with rfl | ⟨_, hw⟩
  · simp
  · simp [hw]
theorem collapseAux_true_headNonWs : ∀ s : List Char,
    headNonWs (collapseAux true s) = true := by
  intro s
  induction s with
  | nil => rfl
  | cons a as ih =>
    unfold collapseAux
    by_cases ha : pyWs a = true
    · rw [if_pos ha, if_pos rfl]
      exact ih
    · rw [if_neg ha]
      have ha2 : pyWs a = false := Bool.not_eq_true (pyWs a) ▸ ha
      show (!pyWs a) = true
      rw [ha2]
      rfl

theorem noDoubleWs_cons {a : Char} {l : List Char} (ha : pyWs a = false)
    (hl : noDoubleWs l = true) : noDoubleWs (a :: l) = true := by
  cases l with
  | nil => rfl
  | cons b bs =>
    unfold noDoubleWs
    simp [ha, hl]

theorem noDoubleWs_cons_head {a : Char} {l : List Char} (hh : headNonWs l = true)
    (hl : noDoubleWs l = true) : noDoubleWs (a :: l) = true := by
  cases l with
  | nil => rfl
  | cons b bs =>
    unfold noDoubleWs
    unfold headNonWs at hh
    simp only [Bool.not_eq_eq_eq_not, Bool.not_true] at hh
    simp [hh, hl]

theorem collapseAux_noDoubleWs : ∀ (b : Bool) (s : List Char),
    noDoubleWs (collapseAux b s) = true := by
  intro b s
  induction s generalizing b with
  | nil => rfl
  | cons a as ih =>
    unfold collapseAux
    by_cases ha : pyWs a = true
    · rw [if_pos ha]
      cases b with
      | true => rw [if_pos rfl]; exact ih true
      | false =>
        rw [if_neg Bool.false_ne_true]
        exact noDoubleWs_cons_head (collapseAux_true_headNonWs as) (ih true)
    · rw [if_neg ha]
      exact noDoubleWs_cons (Bool.not_eq_true (pyWs a) ▸ ha) (ih false)

theorem noDoubleWs_tail {a : Char} {l : List Char}
    (h : noDoubleWs (a :: l) = true) : noDoubleWs l = true := by
  cases l with
  | nil => rfl
  | cons b bs =>
    unfold noDoubleWs at h
    exact (Bool.and_eq_true_iff.mp h).2

/-- On a list whose whitespace is single spaces with no adjacent pair,
the collapse scan is the identity; started in the in-run state it is the
identity when the head is not whitespace. -/
theorem collapse_fix_both : ∀ l : List Char, wsSpace l = true → noDoubleWs l = true →
    collapseAux false l = l ∧ (headNonWs l = true → collapseAux true l = l) := by
  intro l
  induction l with
  | nil => intro _ _; exact ⟨rfl, fun _ => rfl⟩
  | cons a as ih =>
    intro hw hd
    have hwas : wsSpace as = true := by
      rw [wsSpace, List.all_eq_true] at hw ⊢
      intro c hc
      exact hw c (List.mem_cons_of_mem a hc)
    have hdas : noDoubleWs as = true := noDoubleWs_tail hd
    rcases ih hwas hdas with ⟨ih0, ih1⟩
    by_cases ha : pyWs a = true
    · have haSp : a = ' ' := by
        rw [wsSpace, List.all_eq_true] at hw
        have := hw a (List.mem_cons_self a as)
        simp [ha] at this
        exact this
      have hhead : headNonWs as = true := by
        cases as with
        | nil => rfl
        | cons b bs =>
          unfold noDoubleWs at hd
          have := (Bool.and_eq_true_iff.mp hd).1
          unfold headNonWs
          simp only [Bool.not_eq_eq_eq_not, Bool.not_true]
          simp only [Bool.not_eq_true', Bool.and_eq_false_imp] at this
          exact this ha
      constructor
      · unfold collapseAux
        rw [if_pos ha, if_neg Bool.false_ne_true, ih1 hhead, haSp]
      · intro hcontr
        have hq : (!pyWs a) = true := hcontr
        rw [ha] at hq
        cases hq
    · constructor
      · unfold collapseAux
        rw [if_neg ha, ih0]
      · intro _
        unfold collapseAux
        rw [if_neg ha, ih0]
theorem dropTrail_front (p : Char → Bool) : ∀ l : List Char, dropTrail p l <+: l := by
  intro l
  induction l with
  | nil => exact ⟨[], rfl⟩
  | cons c cs ih =>
    unfold dropTrail
    rcases h : dropTrail p cs with _ | ⟨r, rs⟩
    · by_cases hc : p c = true
      · rw [if_pos hc]; exact ⟨c :: cs, rfl⟩
      · rw [if_neg hc]; exact ⟨cs, rfl⟩
    · rw [h] at ih
      exact (List.prefix_cons_inj c).mpr ih

theorem dropTrail_idem (p : Char → Bool) :
    ∀ l : List Char, dropTrail p (dropTrail p l) = dropTrail p l := by
  intro l
  induction l with
  | nil => rfl
  | cons c cs ih =>
    rcases h : dropTrail p cs with _ | ⟨r, rs⟩
    · have e : dropTrail p (c :: cs) = if p c = true then [] else [c] := by
        unfold dropTrail
        rw [h]
      rw [e]
      by_cases hc : p c = true
      · rw [if_pos hc]
        rfl
      · rw [if_neg hc]
        have e2 : dropTrail p [c] = if p c = true then [] else [c] := by
          unfold dropTrail
          rfl
        rw [e2, if_neg hc]
    · have e : dropTrail p (c :: cs) = c :: r :: rs := by
        unfold dropTrail
        rw [h]
      rw [e]
      rw [h] at ih
      have e2 : dropTrail p (c :: r :: rs)
          = match dropTrail p (r :: rs) with
            | [] => if p c = true then [] else [c]
            | q => c :: q := rfl
      rw [e2, ih]

theorem headNonWs_of_front {l1 l2 : List Char} (h : l1 <+: l2)
    (h2 : headNonWs l2 = true) : headNonWs l1 = true := by
  cases l1 with
  | nil => rfl
  | cons a as =>
    rcases h with ⟨t, ht⟩
    cases l2 with
    | nil => cases ht
    | cons b bs =>
      have : a = b := by
        have := congrArg List.head? ht
        simpa using this
      subst this
      exact h2

theorem noDoubleWs_of_front : ∀ {l1 l2 : List Char}, l1 <+: l2 →
    noDoubleWs l2 = true → noDoubleWs l1 = true := by
  intro l1
  induction l1 with
  | nil => intro l2 _ _; rfl
  | cons a as ih =>
    intro l2 hp h2
    rcases hp with ⟨t, ht⟩
    subst ht
    cases as with
    | nil => rfl
    | cons b bs =>
      show (!(pyWs a && pyWs b) && noDoubleWs (b :: bs)) = true
      have h2' : (!(pyWs a && pyWs b) && noDoubleWs (b :: bs ++ t)) = true := h2
      rcases Bool.and_eq_true_iff.mp h2' with ⟨hab, hrest⟩
      have : noDoubleWs (b :: bs) = true := ih ⟨t, rfl⟩ hrest
      simp [hab, this]

theorem noDoubleWs_of_suffix : ∀ {l1 l2 : List Char}, l1 <:+ l2 →
    noDoubleWs l2 = true → noDoubleWs l1 = true := by
  intro l1 l2 hs h2
  rcases hs with ⟨t, ht⟩
  subst ht
  induction t with
  | nil => exact h2
  | cons a ts ih =>
    exact ih (noDoubleWs_tail h2)

theorem wsSpace_of_subset {l1 l2 : List Char} (h : l1 ⊆ l2)
    (h2 : wsSpace l2 = true) : wsSpace l1 = true := by
  rw [wsSpace, List.all_eq_true] at h2 ⊢
  intro c hc
  exact h2 c (h hc)

theorem headNonWs_dropWhile :
    ∀ l : List Char, headNonWs (l.dropWhile pyWs) = true := by
  intro l
  induction l with
  | nil => rfl
  | cons a as ih =>
    rw [List.dropWhile_cons]
    by_cases ha : pyWs a = true
    · rw [if_pos ha]; exact ih
    · rw [if_neg ha]
      have ha2 : pyWs a = false := Bool.not_eq_true (pyWs a) ▸ ha
      show (!pyWs a) = true
      rw [ha2]
      rfl

theorem dropWhile_of_headNonWs {l : List Char} (h : headNonWs l = true) :
    l.dropWhile pyWs = l := by
  cases l with
  | nil => rfl
  | cons a as =>
    have : pyWs a = false := by
      have hq : (!pyWs a) = true := h
      cases hpa : pyWs a with
      | false => rfl
      | true => rw [hpa] at hq; cases hq
    rw [List.dropWhile_cons, if_neg (by rw [this]; exact Bool.false_ne_true)]

theorem pyStrip_idem (l : List Char) : pyStrip (pyStrip l) = pyStrip l := by
  unfold pyStrip
  have h1 : headNonWs (dropTrail pyWs (l.dropWhile pyWs)) = true :=
    headNonWs_of_front (dropTrail_front pyWs (l.dropWhile pyWs))
      (headNonWs_dropWhile l)
  rw [dropWhile_of_headNonWs h1, dropTrail_idem]
/-- C10 counterexample: on `"a , b"` the whitespace collapse runs before the
comma removal, so deleting the comma glues the two surrounding spaces into a
double space that a second normalization pass collapses — normalization is
not idempotent. -/
theorem c10_counterexample :
    normalize_text (normalize_text ("a , b".toList)) ≠ normalize_text ("a , b".toList) := by
  decide

/-- C10 (amended): `_normalize_text` is idempotent on every string containing
no comma (comma removal after whitespace collapsing is the only step that
can create a fresh whitespace run; without commas the first pass's output is
a fixed point of every step). -/
theorem c10_idempotent_comma_free (s : List Char) (h : ',' ∉ s) :
    normalize_text (normalize_text s) = normalize_text s := by
  have hcr : ',' ∉ replEll s := by
    intro hm
    rcases mem_replEll hm with hd | hmem
    · exact absurd hd (by decide)
    · exact h hmem
  have hcy : ',' ∉ collapseWs (replEll s) := by
    intro hm
    rcases mem_collapseAux hm with hd | ⟨hmem, _⟩
    · exact absurd hd (by decide)
    · exact hcr hmem
  have hfy : List.filter (fun c => c != ',') (collapseWs (replEll s)) =
      collapseWs (replEll s) := by
    rw [List.filter_eq_self]
    intro a ha
    have : a ≠ ',' := fun e => hcy (e ▸ ha)
    simpa using this
  have hn : normalize_text s = pyStrip (collapseWs (replEll s)) := by
    unfold normalize_text
    rw [hfy]
  have subn : normalize_text s ⊆ collapseWs (replEll s) := by
    rw [hn]
    unfold pyStrip
    exact List.Subset.trans (dropTrail_front pyWs _).subset
      (List.dropWhile_suffix pyWs).subset
  have hwn : wsSpace (normalize_text s) = true :=
    wsSpace_of_subset subn (collapseAux_wsSpace false (replEll s))
  have hdn : noDoubleWs (normalize_text s) = true := by
    rw [hn]
    unfold pyStrip
    exact noDoubleWs_of_front (dropTrail_front pyWs _)
      (noDoubleWs_of_suffix (List.dropWhile_suffix pyWs)
        (collapseAux_noDoubleWs false (replEll s)))
  have hne : '…' ∉ normalize_text s := by
    intro hm
    rcases mem_collapseAux (subn hm) with hd | ⟨hmem, _⟩
    · exact absurd hd (by decide)
    · exact replEll_no_ell s hmem
  have hnc : ',' ∉ normalize_text s := fun hm => hcy (subn hm)
  have hfix : collapseWs (normalize_text s) = normalize_text s := by
    unfold collapseWs
    exact (collapse_fix_both (normalize_text s) hwn hdn).1
  have hfn : List.filter (fun c => c != ',') (normalize_text s) = normalize_text s := by
    rw [List.filter_eq_self]
    intro a ha
    have : a ≠ ',' := fun e => hnc (e ▸ ha)
    simpa using this
  calc normalize_text (normalize_text s)
      = pyStrip (List.filter (fun c => c != ',')
          (collapseWs (replEll (normalize_text s)))) := rfl
    _ = pyStrip (normalize_text s) := by
        rw [replEll_eq_self hne, hfix, hfn]
    _ = normalize_text s := by
        rw [hn, pyStrip_idem]

/-- Witness for `c10_idempotent_comma_free` on a concrete comma-free string. -/
theorem c10_witness :
    (',' ∉ " a  b…c ".toList) ∧
      normalize_text (normalize_text (" a  b…c ".toList)) =
        normalize_text (" a  b…c ".toList) :=
  ⟨by decide, c10_idempotent_comma_free (" a  b…c ".toList) (by decide)⟩
/-!
### The messages endpoint (C3)
-/

/-- C3 counterexample: a JSON body containing `"text"` but lacking `"mode"`
reaches `mode = data["mode"]` (app.py:86), which sits *before* the `try:`
block opened at app.py:91, so the KeyError escapes the handler uncaught —
contradicting the claim that no request input can make processing raise. -/
theorem c3_counterexample :
    messages (some [("text".toList, "hi".toList)]) none (Except.ok []) =
      HandlerResult.uncaught PyExc.keyError := by
  rfl

/-- C3 (amended): when the body parses, is non-empty and carries both
`"text"` and `"mode"` (and the unprotected logging insert does not fail),
every outcome is a structured response: 200 on success, 503 for a
generation transport failure (`requests.exceptions.RequestException`), 500
for any other failure raised inside the `try:`; a missing or empty body or
a missing `"text"` yields 400.  The `"mode"` lookup and the logging insert,
however, run before the protected region, so the original claim fails for a
body with `"text"` and no `"mode"`. -/
theorem c3_protected_region_structured (body : Option (List (List Char × List Char)))
    (tb : Except PyExc (List Char))
    (hmode : ∀ d, body = some d → d.isEmpty = false →
      jsonGet d textKey ≠ none → jsonGet d modeKey ≠ none) :
    messages body none tb = HandlerResult.response 400 invalidPayload ∨
    (∃ t, tb = Except.ok t ∧ messages body none tb = HandlerResult.response 200 t) ∨
    (tb = Except.error PyExc.requestException ∧
      messages body none tb = HandlerResult.response 503 unavailPayload) ∨
    (∃ e, tb = Except.error e ∧ e ≠ PyExc.requestException ∧
      messages body none tb = HandlerResult.response 500 internalPayload) := by
  rcases body with _ | d
  · exact Or.inl rfl
  · rcases hempty : d.isEmpty with _ | _
    · rcases htext : jsonGet d textKey with _ | v
      · left
        simp [messages, hempty, htext]
      · rcases hmodeEq : jsonGet d modeKey with _ | m
        · exact absurd hmodeEq (hmode d rfl hempty (by simp [htext]))
        · rcases tb with e | t
          · rcases e with _ | _ | _
            · right; right; right
              exact ⟨PyExc.keyError, rfl, by decide,
                by simp [messages, hempty, htext, hmodeEq]⟩
            · right; right; left
              exact ⟨rfl, by simp [messages, hempty, htext, hmodeEq]⟩
            · right; right; right
              exact ⟨PyExc.otherError, rfl, by decide,
                by simp [messages, hempty, htext, hmodeEq]⟩
          · right; left
            exact ⟨t, rfl, by simp [messages, hempty, htext, hmodeEq]⟩
    · left
      simp [messages, hempty]

/-- Witness for `c3_protected_region_structured`: a well-shaped request with
a transport failure in the generation call falls into one of the structured
outcomes. -/
theorem c3_witness :
    messages (some [("text".toList, "hi".toList), ("mode".toList, "letter".toList)])
        none (Except.error PyExc.requestException) =
        HandlerResult.response 400 invalidPayload ∨
    (∃ t, Except.error PyExc.requestException = Except.ok t ∧
      messages (some [("text".toList, "hi".toList), ("mode".toList, "letter".toList)])
        none (Except.error PyExc.requestException) = HandlerResult.response 200 t) ∨
    (Except.error PyExc.requestException =
        Except.error (α := List Char) PyExc.requestException ∧
      messages (some [("text".toList, "hi".toList), ("mode".toList, "letter".toList)])
        none (Except.error PyExc.requestException) =
        HandlerResult.response 503 unavailPayload) ∨
    (∃ e, Except.error (α := List Char) PyExc.requestException = Except.error e ∧
      e ≠ PyExc.requestException ∧
      messages (some [("text".toList, "hi".toList), ("mode".toList, "letter".toList)])
        none (Except.error PyExc.requestException) =
        HandlerResult.response 500 internalPayload) :=
  c3_protected_region_structured
    (some [("text".toList, "hi".toList), ("mode".toList, "letter".toList)])
    (Except.error PyExc.requestException)
    (by intro d hd _ _; cases hd; decide)
/-!
### C1: citation matching versus the link index
-/

/-- The spec's example answer, embedded in a body with a marker. -/
def c1Body : List Char :=
  "<p>Ответ [1].</p><h3>Источники</h3><ol><li>1.docx</li><li>2.pdf</li></ol>".toList

/-- C1 counterexample: with `actual_docs = ["folder/1.docx"]` and an empty
link index, the label `1.docx` passes the path test but `path in links_dict`
fails, so the source records it as unmatched (`(item, None)`,
app.py:474-479); no item gets a link, the `not any(...)` test fires the
full-invalidation branch, and the output replaces the Sources section with
the "not found" marker instead of keeping the plain list items. -/
theorem c1_counterexample :
    containsSub ("<li>1.docx</li>".toList)
      (process_sources c1Body [ "folder/1.docx".toList ] []) = false ∧
    containsSub ("Не найдено!".toList)
      (process_sources c1Body [ "folder/1.docx".toList ] []) = true := by
  constructor
  · decide
  · decide

/-- C1 (amended): a label that matches a path counts as a matched (valid)
citation only when the link index has an entry for that path.  On the spec's
example with an empty link index nothing is matched, the full-invalidation
branch fires, and the output is the body with the marker stripped and the
Sources section replaced by the fixed "not found" marker. -/
theorem c1_empty_link_index_invalidates :
    process_sources c1Body [ "folder/1.docx".toList ] [] =
      ("<p>Ответ .</p><h3>Источники</h3>\n<p style=\"color: red;\">Не найдено!</p>").toList := by
  decide
/-!
### C5: idempotence of the validator
-/

/-- Whether the matcher `m` fires at some position of the string. -/
def hasMatch (m : List Char → Option Nat) : List Char → Bool
  | [] => false
  | c :: cs => (m (c :: cs)).isSome || hasMatch m cs

theorem subAllGo_eq_self {m : List Char → Option Nat} {r : List Char} :
    ∀ (f : Nat) (s : List Char), hasMatch m s = false → subAllGo m r f s = s := by
  intro f
  induction f with
  | zero => intro s _; cases s <;> rfl
  | succ f ih =>
    intro s h
    cases s with
    | nil => rfl
    | cons c cs =>
      unfold hasMatch at h
      rcases Bool.or_eq_false_iff.mp h with ⟨h1, h2⟩
      have hm : m (c :: cs) = none := Option.not_isSome_iff_eq_none.mp (by rw [h1]; decide)
      show (match m (c :: cs) with
        | some (n + 1) => r ++ subAllGo m r f (cs.drop n)
        | _ => c :: subAllGo m r f cs) = c :: cs
      rw [hm, ih cs h2]

theorem subAll_eq_self {m : List Char → Option Nat} {r s : List Char}
    (h : hasMatch m s = false) : subAll m r s = s :=
  subAllGo_eq_self s.length s h

theorem searchSrc_eq_none : ∀ {s : List Char}, hasMatch srcLen s = false →
    searchSrc s = none := by
  intro s
  induction s with
  | nil => intro _; rfl
  | cons c cs ih =>
    intro h
    unfold hasMatch at h
    rcases Bool.or_eq_false_iff.mp h with ⟨h1, h2⟩
    have hm : srcMatch (c :: cs) = none := by
      rw [srcLen] at h1
      rcases hsm : srcMatch (c :: cs) with _ | g
      · rfl
      · rw [hsm] at h1; cases h1
    show (match srcMatch (c :: cs) with
      | some g => some g.2
      | none => searchSrc cs) = none
    rw [hm, ih h2]

/-- A string on which none of the three patterns fires is left unchanged by
the validator. -/
theorem process_sources_fix {s : List Char} (docs : List (List Char))
    (links : List (List Char × List Char))
    (h1 : hasMatch markerLen s = false) (h2 : hasMatch confLen s = false)
    (h3 : hasMatch srcLen s = false) :
    process_sources s docs links = s := by
  unfold process_sources
  rw [searchSrc_eq_none h3]
  show subAll srcLen notFoundSection (zeroConf (stripMarkers s)) = s
  rw [stripMarkers, subAll_eq_self h1, zeroConf, subAll_eq_self h2, subAll_eq_self h3]

/-- C5 counterexample: re-validating the validator's own output wraps an
already-linked Sources item in a second anchor (the rebuilt item is the
full inner HTML of the previous run's anchor, app.py:495-501), so running
the validator twice differs from running it once. -/
theorem c5_counterexample :
    process_sources
        (process_sources ("<h3>Источники</h3><ol><li>1.docx</li></ol>".toList)
          [ "1.docx".toList ] [("1.docx".toList, "L".toList)])
        [ "1.docx".toList ] [("1.docx".toList, "L".toList)]
      ≠ process_sources ("<h3>Источники</h3><ol><li>1.docx</li></ol>".toList)
          [ "1.docx".toList ] [("1.docx".toList, "L".toList)] := by
  decide

/-- C5 (amended): the validator is not idempotent in general — re-running it
re-wraps linked Sources items in a second anchor layer, and the single-pass
marker stripping can leave new bracket-digit juxtapositions that only a
second run removes.  It is idempotent exactly where it acts trivially: on
every answer in which no bracket-number marker, no accuracy marker and no
Sources-section pattern occurs, the validator is the identity and hence
idempotent. -/
theorem c5_idempotent_on_trivial (s : List Char) (docs : List (List Char))
    (links : List (List Char × List Char))
    (h1 : hasMatch markerLen s = false) (h2 : hasMatch confLen s = false)
    (h3 : hasMatch srcLen s = false) :
    process_sources (process_sources s docs links) docs links
      = process_sources s docs links := by
  rw [process_sources_fix docs links h1 h2 h3]
  exact process_sources_fix docs links h1 h2 h3

/-- Witness for `c5_idempotent_on_trivial` on a plain answer. -/
theorem c5_witness :
    hasMatch markerLen ("<p>hello</p>".toList) = false ∧
    hasMatch confLen ("<p>hello</p>".toList) = false ∧
    hasMatch srcLen ("<p>hello</p>".toList) = false ∧
    process_sources (process_sources ("<p>hello</p>".toList) [] []) [] []
      = process_sources ("<p>hello</p>".toList) [] [] :=
  ⟨by decide, by decide, by decide,
    c5_idempotent_on_trivial ("<p>hello</p>".toList) [] []
      (by decide) (by decide) (by decide)⟩
/-!
### C7: the zero-match full-invalidation branch
-/

/-- Every left bracket in the string opens a complete numeric marker
`[digits]`. -/
def bracketsOk : List Char → Bool
  | [] => true
  | c :: cs => (c != '[' || (markerLen (c :: cs)).isSome) && bracketsOk cs

theorem bracketsOk_tail {c : Char} {cs : List Char}
    (h : bracketsOk (c :: cs) = true) : bracketsOk cs = true :=
  (Bool.and_eq_true_iff.mp h).2

theorem bracketsOk_drop : ∀ (k : Nat) {s : List Char}, bracketsOk s = true →
    bracketsOk (s.drop k) = true := by
  intro k
  induction k with
  | zero => intro s h; exact h
  | succ k ih =>
    intro s h
    cases s with
    | nil => rfl
    | cons c cs => exact ih (bracketsOk_tail h)

theorem markerLen_succ {s : List Char} {n : Nat} (h : markerLen s = some n) :
    ∃ m, n = m + 1 := by
  rcases s with _ | ⟨c, rest⟩
  · cases h
  · simp only [markerLen] at h
    by_cases hc : c = '['
    · rw [if_pos hc] at h
      by_cases hd : (rest.takeWhile Char.isDigit).isEmpty = true
      · rw [if_pos hd] at h; cases h
      · rw [if_neg hd] at h
        by_cases hb : (rest.drop (rest.takeWhile Char.isDigit).length).head? = some ']'
        · rw [if_pos hb, Option.some.injEq] at h
          exact ⟨(rest.takeWhile Char.isDigit).length + 1, by omega⟩
        · rw [if_neg hb] at h; cases h
    · rw [if_neg hc] at h; cases h

theorem markerLen_none_of_ne {c : Char} (cs : List Char) (h : c ≠ '[') :
    markerLen (c :: cs) = none := by
  simp only [markerLen]
  rw [if_neg h]

theorem bracketsOk_head {c : Char} {cs : List Char} (h : bracketsOk (c :: cs) = true)
    (hm : markerLen (c :: cs) = none) : c ≠ '[' := by
  rcases Bool.and_eq_true_iff.mp h with ⟨h1, _⟩
  intro hc
  subst hc
  rw [hm] at h1
  simp at h1

theorem no_lbracket_stripGo : ∀ (f : Nat) (s : List Char), s.length ≤ f →
    bracketsOk s = true → '[' ∉ subAllGo markerLen [] f s := by
  intro f
  induction f with
  | zero =>
    intro s hf _
    have : s = [] := List.eq_nil_of_length_eq_zero (Nat.le_zero.mp hf)
    rw [this]
    intro h
    cases h
  | succ f ih =>
    intro s hf hb
    cases s with
    | nil => intro h; cases h
    | cons c cs =>
      have hcs : cs.length ≤ f := by
        have : (c :: cs).length = cs.length + 1 := rfl
        omega
      rcases hm : markerLen (c :: cs) with _ | n
      · intro hmem
        have hmem2 : '[' ∈ c :: subAllGo markerLen [] f cs := by
          revert hmem
          show '[' ∈ (match markerLen (c :: cs) with
            | some (n + 1) => ([] : List Char) ++ subAllGo markerLen [] f (cs.drop n)
            | _ => c :: subAllGo markerLen [] f cs) → _
          rw [hm]
          exact id
        rcases List.mem_cons.mp hmem2 with hc | hmem3
        · exact bracketsOk_head hb hm hc.symm
        · exact ih cs hcs (bracketsOk_tail hb) hmem3
      · rcases markerLen_succ hm with ⟨m, rfl⟩
        intro hmem
        have hmem2 : '[' ∈ subAllGo markerLen [] f (cs.drop m) := by
          revert hmem
          show '[' ∈ (match markerLen (c :: cs) with
            | some (n + 1) => ([] : List Char) ++ subAllGo markerLen [] f (cs.drop n)
            | _ => c :: subAllGo markerLen [] f cs) → _
          rw [hm]
          exact id
        have hlen : (cs.drop m).length ≤ f := by
          rw [List.length_drop]
          omega
        exact ih (cs.drop m) hlen (bracketsOk_drop m (bracketsOk_tail hb)) hmem2

theorem no_lbracket_stripMarkers {s : List Char} (h : bracketsOk s = true) :
    '[' ∉ stripMarkers s :=
  no_lbracket_stripGo s.length s (Nat.le_refl _) h

theorem mem_subAllGo {m : List Char → Option Nat} {r : List Char} {a : Char} :
    ∀ (f : Nat) (s : List Char), a ∈ subAllGo m r f s → a ∈ s ∨ a ∈ r := by
  intro f
  induction f with
  | zero =>
    intro s h
    cases s with
    | nil => cases h
    | cons c cs => exact Or.inl h
  | succ f ih =>
    intro s h
    cases s with
    | nil => cases h
    | cons c cs =>
      rcases hm : m (c :: cs) with _ | n
      · have h2 : a ∈ c :: subAllGo m r f cs := by
          revert h
          show a ∈ (match m (c :: cs) with
            | some (n + 1) => r ++ subAllGo m r f (cs.drop n)
            | _ => c :: subAllGo m r f cs) → _
          rw [hm]
          exact id
        rcases List.mem_cons.mp h2 with rfl | h3
        · exact Or.inl (List.mem_cons_self a cs)
        · rcases ih cs h3 with hs | hr
          · exact Or.inl (List.mem_cons_of_mem c hs)
          · exact Or.inr hr
      · cases n with
        | zero =>
          have h2 : a ∈ c :: subAllGo m r f cs := by
            revert h
            show a ∈ (match m (c :: cs) with
              | some (n + 1) => r ++ subAllGo m r f (cs.drop n)
              | _ => c :: subAllGo m r f cs) → _
            rw [hm]
            exact id
          rcases List.mem_cons.mp h2 with rfl | h3
          · exact Or.inl (List.mem_cons_self a cs)
          · rcases ih cs h3 with hs | hr
            · exact Or.inl (List.mem_cons_of_mem c hs)
            · exact Or.inr hr
        | succ n =>
          have h2 : a ∈ r ++ subAllGo m r f (cs.drop n) := by
            revert h
            show a ∈ (match m (c :: cs) with
              | some (n + 1) => r ++ subAllGo m r f (cs.drop n)
              | _ => c :: subAllGo m r f cs) → _
            rw [hm]
            exact id
          rcases List.mem_append.mp h2 with hr | h3
          · exact Or.inr hr
          · rcases ih (cs.drop n) h3 with hs | hr
            · exact Or.inl (List.mem_cons_of_mem c (List.drop_subset n cs hs))
            · exact Or.inr hr

theorem mem_subAll {m : List Char → Option Nat} {r s : List Char} {a : Char}
    (h : a ∈ subAll m r s) : a ∈ s ∨ a ∈ r :=
  mem_subAllGo s.length s h

theorem no_marker_of_no_lbracket : ∀ {s : List Char}, '[' ∉ s →
    hasMatch markerLen s = false := by
  intro s
  induction s with
  | nil => intro _; rfl
  | cons c cs ih =>
    intro h
    have hc : c ≠ '[' := fun e => h (e ▸ List.mem_cons_self c cs)
    unfold hasMatch
    rw [markerLen_none_of_ne cs (fun e => hc e), ih (fun e => h (List.mem_cons_of_mem c e))]
    rfl
theorem resolveItem_eq_none {docs : List (List Char)}
    {links : List (List Char × List Char)} {item : List Char}
    (h : docs.all (fun p => !(relMatch p (cleanItem item))) = true) :
    resolveItem docs links item = none := by
  unfold resolveItem
  rw [List.all_eq_true] at h
  induction docs with
  | nil => rfl
  | cons p ps ih =>
    rw [List.findSome?_cons]
    have hp : relMatch p (cleanItem item) = false := by
      have := h p (List.mem_cons_self p ps)
      simpa using this
    rw [if_neg (by rw [hp]; exact Bool.false_ne_true)]
    exact ih (fun q hq => h q (List.mem_cons_of_mem p hq))

/-- The example answer of the C7 counterexample: nested brackets, a Sources
list whose item matches no document, and an accuracy marker. -/
def c7Body : List Char :=
  ("<p>[1[2]3]</p><h3>Источники</h3><ol><li>x.docx</li></ol>"
    ++ "<p><i>Точность ответа:<b> 7/10</b></i></p>").toList

/-- C7 counterexample: the answer has a Sources list and an accuracy marker
of the prescribed shapes and zero labels match (there are no documents), yet
the output still contains a bracket-numbered marker: the single left-to-right
pass of `re.sub(r"\[\d+\]", "", ...)` removes `[2]` from `[1[2]3]` and glues
the remains into the fresh marker `[13]`. -/
theorem c7_counterexample :
    searchSrc c7Body = some ("<li>x.docx</li>".toList) ∧
    hasMatch confLen c7Body = true ∧
    hasMatch markerLen (process_sources c7Body [] []) = true := by
  refine ⟨by decide, by decide, by decide⟩
/-- C7 (amended): if zero candidate citation labels match any actual document
path, the validator takes the full-invalidation branch — the output is the
answer with bracket markers stripped in one pass, accuracy markers forced to
the zero value and Sources sections replaced by the fixed "not found"
marker; and whenever every left bracket of the answer opens a complete
numeric marker, the output contains no bracket-numbered marker at all.
(Without that proviso the single-pass stripping can juxtapose leftovers into
a fresh marker, as the counterexample shows.) -/
theorem c7_zero_match_invalidates (s : List Char) (docs : List (List Char))
    (links : List (List Char × List Char)) (content : List Char)
    (hsec : searchSrc s = some content)
    (hzero : (liItems content).all
      (fun it => docs.all (fun p => !(relMatch p (cleanItem it)))) = true) :
    process_sources s docs links
        = subAll srcLen notFoundSection (zeroConf (stripMarkers s)) ∧
    (bracketsOk s = true →
      hasMatch markerLen (process_sources s docs links) = false) := by
  have hall : ((liItems content).map
      (fun it => (it, resolveItem docs links it))).all (fun pr => pr.2.isNone) = true := by
    rw [List.all_eq_true]
    intro pr hpr
    rw [List.mem_map] at hpr
    rcases hpr with ⟨it, hit, rfl⟩
    have hres : resolveItem docs links it = none :=
      resolveItem_eq_none ((List.all_eq_true.mp hzero) it hit)
    show (resolveItem docs links it).isNone = true
    rw [hres]
    rfl
  have hbranch : process_sources s docs links
      = subAll srcLen notFoundSection (zeroConf (stripMarkers s)) := by
    unfold process_sources
    rw [hsec]
    show (if ((liItems content).map
        (fun it => (it, resolveItem docs links it))).all (fun pr => pr.2.isNone) = true
      then subAll srcLen notFoundSection (zeroConf (stripMarkers s))
      else subAll srcLen
        (builtSection ((liItems content).map (fun it => (it, resolveItem docs links it)))) s)
      = subAll srcLen notFoundSection (zeroConf (stripMarkers s))
    rw [if_pos hall]
  refine ⟨hbranch, ?_⟩
  intro hbr
  rw [hbranch]
  apply no_marker_of_no_lbracket
  intro hmem
  rcases mem_subAll hmem with h2 | h2
  · rcases mem_subAll h2 with h3 | h3
    · exact no_lbracket_stripMarkers hbr h3
    · exact absurd h3 (by decide)
  · exact absurd h2 (by decide)

/-- Witness for `c7_zero_match_invalidates` on a well-bracketed answer with
no matching documents. -/
theorem c7_witness :
    searchSrc ("<h3>Источники</h3><ol><li>a.docx</li></ol><p>[1] Точность ответа:<b> 9/10</b></p>".toList)
        = some ("<li>a.docx</li>".toList) ∧
    bracketsOk ("<h3>Источники</h3><ol><li>a.docx</li></ol><p>[1] Точность ответа:<b> 9/10</b></p>".toList) = true ∧
    process_sources ("<h3>Источники</h3><ol><li>a.docx</li></ol><p>[1] Точность ответа:<b> 9/10</b></p>".toList) [] []
        = subAll srcLen notFoundSection (zeroConf (stripMarkers
            ("<h3>Источники</h3><ol><li>a.docx</li></ol><p>[1] Точность ответа:<b> 9/10</b></p>".toList))) ∧
    hasMatch markerLen (process_sources
        ("<h3>Источники</h3><ol><li>a.docx</li></ol><p>[1] Точность ответа:<b> 9/10</b></p>".toList) [] []) = false := by
  have h := c7_zero_match_invalidates
    ("<h3>Источники</h3><ol><li>a.docx</li></ol><p>[1] Точность ответа:<b> 9/10</b></p>".toList)
    [] [] ("<li>a.docx</li>".toList) (by decide) (by decide)
  exact ⟨by decide, by decide, h.1, h.2 (by decide)⟩
